import Mathlib

/-!
Verification development for the agent-execution orchestration subsystem of
the ralphblaster repository (src/lib/ralph.ts and
src/app/api/tickets/[id]/start-ralph/route.ts).

The TypeScript code is shallowly embedded: JavaScript strings are modelled as
Lean `String` / `List Char` (code points; the inputs of interest are ASCII),
JSON numbers as `Rat` or `Nat` where the code only copies them, absent JSON
fields as `Option`, and the in-memory cancellation `Map` as an association
list with unique keys.  Stateful handlers are embedded as pure functions from
their inputs to the value they produce together with an explicit record of
the writes they perform.
-/

/-- Status enumeration of `RalphProgress` (src/lib/ralph.ts line 17). -/
inductive RalphStatus where
  | LAUNCHING
  | RUNNING
  | COMPLETED
  | FAILED
deriving DecidableEq

/-- The `RalphProgress` interface (src/lib/ralph.ts lines 16-22): the durable
Progress Record persisted as progress.json. -/
structure RalphProgress where
  status : RalphStatus
  phase : String
  message : String
  timestamp : String
  logs : List String
deriving DecidableEq

/-- Token-usage part of `RalphReport` (src/lib/ralph.ts lines 30-35). -/
structure RalphUsage where
  inputTokens : Nat
  outputTokens : Nat
  cacheReadTokens : Nat
  cacheCreationTokens : Nat
deriving DecidableEq

/-- The `RalphReport` interface (src/lib/ralph.ts lines 24-37).  Duration and
cost are JSON numbers that the code only copies, embedded as `Rat`. -/
structure RalphReport where
  success : Bool
  durationMs : Rat
  totalCostUsd : Rat
  numTurns : Nat
  model : String
  usage : RalphUsage
  summary : String
deriving DecidableEq

/-- A partial progress update, the argument of `updateProgress`
(src/lib/ralph.ts line 632): each scalar field may be supplied or absent, and
`logs` carries the lines to append (the code always passes a list; an absent
list behaves like `[]`). -/
structure ProgressPatch where
  status : Option RalphStatus
  phase : Option String
  message : Option String
  timestamp : Option String
  logs : List String
deriving DecidableEq

/-- Embedding of `updateProgress` (src/lib/ralph.ts lines 632-660): spread of
the existing record with the patch, where `logs` concatenates instead of
replacing.  When progress.json is missing or unreadable the code falls back
to a default record whose timestamp is the current time (`defaultTs`).
Note the merge performs NO truncation of the log array. -/
def updateProgress (existing : Option RalphProgress) (patch : ProgressPatch)
    (defaultTs : String) : RalphProgress :=
  let base := existing.getD
    { status := .RUNNING, phase := "", message := "", timestamp := defaultTs, logs := [] }
  { status := patch.status.getD base.status
    phase := patch.phase.getD base.phase
    message := patch.message.getD base.message
    timestamp := patch.timestamp.getD base.timestamp
    logs := base.logs ++ patch.logs }

/-- Outcome of the promise returned by `executeRalph` /
`executeRalphChanges`: it either resolves with a report or rejects with an
error message. -/
inductive RalphOutcome where
  | resolved (report : RalphReport)
  | rejected (errMsg : String)
deriving DecidableEq

/-- Text interpolation of the Node exit code: a number prints as itself and
the `null` exit code (process killed by signal) prints as "null", exactly as
the template literal in the source renders it. -/
def exitCodeText : Option Int → String
  | some c => toString c
  | none => "null"

/-- Embedding of the `close` handler of `executeRalph` (src/lib/ralph.ts
lines 285-334).  Inputs: the exit code the handler receives and the `report`
variable at that moment (some report iff a terminal result event was parsed).
Output: the promise outcome and the `ProgressPatch` passed to
`updateProgress`. -/
def ralphCloseHandler (code : Option Int) (report : Option RalphReport)
    (now : String) : RalphOutcome × ProgressPatch :=
  if code = some 0 then
    match report with
    | some r =>
        (.resolved r,
         { status := some .COMPLETED, phase := some "Done",
           message := some "Implementation completed successfully!",
           timestamp := some now, logs := [] })
    | none =>
        (.rejected ("Ralph exited with code " ++ exitCodeText code),
         { status := some .FAILED, phase := some "Error",
           message := some ("Ralph exited with code " ++ exitCodeText code),
           timestamp := some now, logs := [] })
  else
    (.rejected ("Ralph exited with code " ++ exitCodeText code),
     { status := some .FAILED, phase := some "Error",
       message := some ("Ralph exited with code " ++ exitCodeText code),
       timestamp := some now, logs := [] })

/-- Embedding of the `close` handler of `executeRalphChanges`
(src/lib/ralph.ts lines 548-597), a verbatim copy of the one in
`executeRalph` except for the success message text. -/
def ralphChangesCloseHandler (code : Option Int) (report : Option RalphReport)
    (now : String) : RalphOutcome × ProgressPatch :=
  if code = some 0 then
    match report with
    | some r =>
        (.resolved r,
         { status := some .COMPLETED, phase := some "Done",
           message := some "Changes implemented successfully!",
           timestamp := some now, logs := [] })
    | none =>
        (.rejected ("Ralph exited with code " ++ exitCodeText code),
         { status := some .FAILED, phase := some "Error",
           message := some ("Ralph exited with code " ++ exitCodeText code),
           timestamp := some now, logs := [] })
  else
    (.rejected ("Ralph exited with code " ++ exitCodeText code),
     { status := some .FAILED, phase := some "Error",
       message := some ("Ralph exited with code " ++ exitCodeText code),
       timestamp := some now, logs := [] })

/-- Embedding of the `error` (spawn failure) handler, identical in
`executeRalph` (src/lib/ralph.ts lines 336-346) and `executeRalphChanges`
(lines 599-609). -/
def ralphErrorHandler (errMessage : String) (now : String) :
    RalphOutcome × ProgressPatch :=
  (.rejected ("Failed to start Ralph: " ++ errMessage),
   { status := some .FAILED, phase := some "Error",
     message := some ("Failed to start Ralph: " ++ errMessage),
     timestamp := some now, logs := [] })

/-- ASCII lower-casing of one code point, the effect of the JavaScript
`toLowerCase` on the ASCII range used by ticket titles. -/
def jsToLower (c : Char) : Char := c.toLower

/-- Membership in the character class `[a-z0-9]` of the slug regular
expression in `createRalphInstance` (src/lib/ralph.ts line 49). -/
def isSlugChar (c : Char) : Bool :=
  (('a' ≤ c) && (c ≤ 'z')) || (('0' ≤ c) && (c ≤ '9'))

/-- Replacement of every maximal run of characters outside `[a-z0-9]` by a
single dash, the effect of `replace` with a global `[^a-z0-9]+` pattern.
The flag records whether the scan is currently inside such a run. -/
def collapseRuns : List Char → Bool → List Char
  | [], _ => []
  | c :: cs, inRun =>
      if isSlugChar c then c :: collapseRuns cs false
      else if inRun then collapseRuns cs true
      else '-' :: collapseRuns cs true

/-- The ticket slug of `createRalphInstance` (src/lib/ralph.ts lines 47-50):
lower-case, collapse non-alphanumeric runs to dashes, keep the first 50
characters. -/
def slugify (title : String) : String :=
  String.mk ((collapseRuns (title.toList.map jsToLower) false).take 50)

/-- Sanitisation of the ISO timestamp (src/lib/ralph.ts line 46): every colon
and dot is replaced by a dash. -/
def ralphTimestamp (iso : String) : String :=
  String.mk (iso.toList.map fun c => if c = ':' || c = '.' then '-' else c)

/-- The instance path allocated by `createRalphInstance` (src/lib/ralph.ts
lines 51-52): the working directory joined with "ralph-instances" and the
instance name, which is the slug, a dash, and the sanitised timestamp.
`iso` is the ISO rendering of the creation time (millisecond precision). -/
def instancePathOf (cwd title iso : String) : String :=
  cwd ++ "/ralph-instances/" ++ slugify title ++ "-" ++ ralphTimestamp iso

/-- Whitespace test used by the JavaScript `trim` on the ASCII range (space,
tab, line feed, carriage return, vertical tab, form feed). -/
def jsWhitespace (c : Char) : Bool :=
  c = ' ' || c = '\t' || c = '\n' || c = '\r' || c = '\x0b' || c = '\x0c'

/-- Embedding of the JavaScript `trim`: strip leading and trailing
whitespace. -/
def jsTrim (s : String) : String :=
  String.mk (((s.toList.dropWhile jsWhitespace).reverse.dropWhile jsWhitespace).reverse)

/-- The log entry text built by `appendLog` (src/lib/ralph.ts lines 667-668):
the timestamp in square brackets followed by the raw message. -/
def entryOf (now message : String) : String := "[" ++ now ++ "] " ++ message

/-- The log-array update performed by `appendLog` (src/lib/ralph.ts lines
675-679): push the entry, then keep only the last 100 entries when the array
exceeds 100 (`slice(-100)`). -/
def appendLogLogs (logs : List String) (entry : String) : List String :=
  if (logs ++ [entry]).length > 100 then
    (logs ++ [entry]).drop ((logs ++ [entry]).length - 100)
  else logs ++ [entry]

/-- The durable files of one instance that `appendLog` touches: the
append-only progress.md transcript and the parsed progress.json record
(`none` when the file is missing or unparseable). -/
structure InstanceFiles where
  progressMd : String
  progressJson : Option RalphProgress
deriving DecidableEq

/-- Embedding of `appendLog` (src/lib/ralph.ts lines 662-687): no-op on
blank input; otherwise append the entry to progress.md and, when
progress.json is readable, push the entry onto its log array with the
100-entry cap.  All other fields of the record are untouched. -/
def appendLog (files : InstanceFiles) (message now : String) : InstanceFiles :=
  if jsTrim message = "" then files
  else
    let entry := entryOf now message
    let md := files.progressMd ++ "\n" ++ entry
    match files.progressJson with
    | none => { progressMd := md, progressJson := none }
    | some p =>
        { progressMd := md,
          progressJson := some { p with logs := appendLogLogs p.logs entry } }

/-- Iterated single-line appends through `appendLog`; each element carries
the message and the timestamp of that append. -/
def iterateAppendLogs (files : InstanceFiles) (msgs : List (String × String)) :
    InstanceFiles :=
  msgs.foldl (fun f m => appendLog f m.1 m.2) files

/-- A partial update carrying exactly one log line and no scalar fields, the
shape of a single-line log append routed through `updateProgress`. -/
def singleLinePatch (line : String) : ProgressPatch :=
  { status := none, phase := none, message := none, timestamp := none,
    logs := [line] }

/-- Iterated single-line log appends through `updateProgress` (read-modify-
write of the stored record each time). -/
def iterateUpdates (p : RalphProgress) (lines : List String) : RalphProgress :=
  lines.foldl (fun q l => updateProgress (some q) (singleLinePatch l) q.timestamp) p

/-- The last `n` elements of a list (the effect of `slice(-n)`). -/
def lastN {α : Type} (n : Nat) (xs : List α) : List α := xs.drop (xs.length - n)

/-- Embedding of the JavaScript `split` on the newline character: the list of
segments of a character sequence between newlines (always non-empty; a
trailing newline yields a final empty segment), exactly the behaviour of
the split of lineBuffer on the newline character in src/lib/ralph.ts
line 199. -/
def splitNl : List Char → List (List Char)
  | [] => [[]]
  | c :: cs =>
    match splitNl cs with
    | [] => [[]]
    | l :: ls => if c = '\n' then [] :: l :: ls else (c :: l) :: ls

/-- Prepend a pending fragment to the first segment of a split (used to
relate splitting a concatenation to splitting its parts). -/
def glueFirst (p : List Char) : List (List Char) → List (List Char)
  | [] => [p]
  | h :: t => (p ++ h) :: t

/-- One `data` callback of the stdout handler (src/lib/ralph.ts lines
190-200): append the chunk to the line buffer, split on newlines, process
all segments but the last, and keep the last (possibly incomplete) segment
as the new line buffer (`lines.pop()`). -/
def chunkStep (buf chunk : List Char) : List (List Char) × List Char :=
  ((splitNl (buf ++ chunk)).dropLast, (splitNl (buf ++ chunk)).getLast?.getD [])

/-- The complete lines processed and the final line buffer after a sequence
of stdout chunks, starting from the given line buffer (initially empty in
`executeRalph`). -/
def runChunks : List Char → List (List Char) → List (List Char) × List Char
  | buf, [] => ([], buf)
  | buf, c :: cs =>
      ((chunkStep buf c).1 ++ (runChunks (chunkStep buf c).2 cs).1,
       (runChunks (chunkStep buf c).2 cs).2)

/-- The `usage` object of a terminal result event: each token count may be
absent. -/
structure JsTokenUsage where
  input_tokens : Option Nat
  output_tokens : Option Nat
  cache_read_input_tokens : Option Nat
  cache_creation_input_tokens : Option Nat
deriving DecidableEq

/-- A parsed terminal result event (the fields of the JSON object that the
result branch of the stdout handler reads, src/lib/ralph.ts lines 241-260).
`modelUsageKeys` is the key enumeration order of the per-model usage map
(the code reads only its first key; the values are unused), `none` when the
map is absent. -/
structure ResultEvent where
  is_error : Option Bool
  duration_ms : Option Rat
  total_cost_usd : Option Rat
  num_turns : Option Nat
  modelUsageKeys : Option (List String)
  usage : Option JsTokenUsage
  result : Option String
deriving DecidableEq

/-- Embedding of the Report construction from a result event
(src/lib/ralph.ts lines 247-260): success is the negation of the error flag
(an absent flag is falsy), numeric fields fall back to zero when absent (the
JavaScript or-default also maps a present zero to zero), the model is the
first key of the per-model usage map unless the key list is empty or its
first key is the empty string (both falsy cases of the or-default, giving
"unknown"), and the summary falls back to the empty string. -/
def buildReport (e : ResultEvent) : RalphReport :=
  { success := !(e.is_error.getD false)
    durationMs := e.duration_ms.getD 0
    totalCostUsd := e.total_cost_usd.getD 0
    numTurns := e.num_turns.getD 0
    model :=
      match (e.modelUsageKeys.getD []).head? with
      | none => "unknown"
      | some k => if k = "" then "unknown" else k
    usage :=
      match e.usage with
      | none => ⟨0, 0, 0, 0⟩
      | some u =>
          ⟨u.input_tokens.getD 0, u.output_tokens.getD 0,
           u.cache_read_input_tokens.getD 0, u.cache_creation_input_tokens.getD 0⟩
    summary := e.result.getD "" }

/-- One observable action of the stdout/stderr handlers: invoking the
`onProgress` callback, appending to the Progress Store via `appendLog`, or
mirroring to the raw debug log. -/
inductive RunAct where
  | callback (line : String)
  | store (line : String)
  | debugMirror (line : String)
deriving DecidableEq

/-- Actions performed for one complete stdout line (src/lib/ralph.ts lines
202-273).  When the line parsed as JSON, `parsed` holds the synthesized
logMessage (possibly empty when no recognised event produced a label, in
which case nothing is forwarded); when JSON parsing threw, `parsed` is
`none` and the raw line is forwarded unless blank.  In both forwarding
branches the code calls `onProgress` first and `appendLog` second. -/
def stdoutLineActs (parsed : Option String) (line : String) : List RunAct :=
  match parsed with
  | some logMessage =>
      if logMessage ≠ "" then
        [.callback (logMessage ++ "\n"), .store logMessage]
      else []
  | none =>
      if jsTrim line ≠ "" then
        [.callback (line ++ "\n"), .store (jsTrim line)]
      else []

/-- Actions performed for one stderr chunk (src/lib/ralph.ts lines 277-283):
mirror to the debug log, append the tagged line to the Progress Store, and
only then invoke the progress callback — in that source order. -/
def stderrChunkActs (chunk : String) : List RunAct :=
  [.debugMirror ("[stderr] " ++ chunk),
   .store ("[error] " ++ jsTrim chunk),
   .callback ("[stderr] " ++ chunk)]

/-- Test for a callback action. -/
def isCallbackAct : RunAct → Bool
  | .callback _ => true
  | _ => false

/-- Test for a Progress Store append action. -/
def isStoreAct : RunAct → Bool
  | .store _ => true
  | _ => false

/-- The `RalphInstance` interface (src/lib/ralph.ts lines 8-14). -/
structure RalphInstance where
  instancePath : String
  ticketSlug : String
  timestamp : String
  worktreePath : Option String
  branchName : Option String
deriving DecidableEq

/-- Environment oracle for the two version-control commands `createWorktree`
runs: whether the project path is inside a work tree (the rev-parse check
succeeds) and whether the worktree-add command succeeds. -/
structure WorktreeEnv where
  isGitRepo : Bool
  worktreeAddOk : Bool
deriving DecidableEq

/-- Embedding of `createWorktree` (src/lib/ralph.ts lines 82-106): on
success of both git commands it returns the worktree path inside the
instance directory and the new branch name and logs one creation line; any
failure is caught and degrades to the original project path with an empty
branch name and exactly one note log line.  The try/catch makes the
function total: it never raises.  Returns the (workDir, branchName) pair
and the log lines appended to the Progress Record. -/
def createWorktree (env : WorktreeEnv) (inst : RalphInstance)
    (projectPath : String) : (String × String) × List String :=
  if env.isGitRepo && env.worktreeAddOk then
    ((inst.instancePath ++ "/worktree",
      "ralph/" ++ inst.ticketSlug ++ "-" ++ inst.timestamp.take 19),
     ["Created git worktree: ralph/" ++ inst.ticketSlug ++ "-"
        ++ inst.timestamp.take 19])
  else
    ((projectPath, ""),
     ["Note: Could not create worktree, working directly in project"])

/-- Lookup in the in-memory cancellation registry (`activeProcesses.get`,
src/lib/ralph.ts line 351).  A JavaScript `Map` has unique keys; it is
modelled as an association list from ticket id to the process handle. -/
def registryGet (reg : List (String × Nat)) (k : String) : Option Nat :=
  (reg.find? (fun e => e.1 == k)).map (fun e => e.2)

/-- Removal from the cancellation registry (`activeProcesses.delete`,
src/lib/ralph.ts line 354): under the unique-key invariant of a `Map` this
removes exactly the entry for the key. -/
def registryDelete (reg : List (String × Nat)) (k : String) :
    List (String × Nat) :=
  reg.filter (fun e => !(e.1 == k))

/-- The registry together with the record of handles whose `kill` was
requested (the observable side effect of `process.kill()`). -/
structure CancelState where
  registry : List (String × Nat)
  killed : List Nat
deriving DecidableEq

/-- Embedding of `cancelRalph` (src/lib/ralph.ts lines 350-358): if a
handle is registered for the ticket id, request termination, remove the
registration and return true; otherwise return false with no side effect. -/
def cancelRalph (st : CancelState) (ticketId : String) : Bool × CancelState :=
  match registryGet st.registry ticketId with
  | some h => (true, ⟨registryDelete st.registry ticketId, h :: st.killed⟩)
  | none => (false, st)

/-- Ticket-record status values used by the start-ralph route
(src/app/api/tickets/[id]/start-ralph/route.ts): `idle` stands for any
pre-run value of the ralphStatus column. -/
inductive TicketStatus where
  | idle
  | launching
  | running
  | completed
  | failed
deriving DecidableEq

/-- Terminal ticket statuses (the guard condition of the log callback,
route.ts lines 101-104). -/
def terminalTicket (s : TicketStatus) : Bool :=
  match s with
  | .completed => true
  | .failed => true
  | _ => false

/-- Progress of one in-flight log callback (route.ts lines 92-119): it first
reads the current ralphStatus (`findUnique`), remembering the observed
value, and later — unless the observed value was terminal — writes
ralphStatus RUNNING (`update`). -/
inductive CbPhase where
  | idleCb
  | readDone (observed : TicketStatus)
  | doneCb
deriving DecidableEq

/-- State of one execution as seen through the ticket record: the current
ralphStatus, the remaining writes of the main route path (LAUNCHING at
start, then the terminal write of the promise continuation), and the
in-flight log callbacks. -/
structure RouteState where
  status : TicketStatus
  pending : List TicketStatus
  cbs : List CbPhase
deriving DecidableEq

/-- Fine-grained interleaving semantics of the route as written: the status
read and the conditional status write of a log callback are two separate
awaited database operations, so other writes may interleave between them. -/
inductive RouteStep : RouteState → RouteState → Prop
  | mainWrite (s : RouteState) (w : TicketStatus) (rest : List TicketStatus)
      (h : s.pending = w :: rest) :
      RouteStep s ⟨w, rest, s.cbs⟩
  | cbRead (s : RouteState) (i : Nat) (h : s.cbs[i]? = some .idleCb) :
      RouteStep s ⟨s.status, s.pending, s.cbs.set i (.readDone s.status)⟩
  | cbWriteRun (s : RouteState) (i : Nat) (obs : TicketStatus)
      (h1 : s.cbs[i]? = some (.readDone obs))
      (h2 : terminalTicket obs = false) :
      RouteStep s ⟨.running, s.pending, s.cbs.set i .doneCb⟩
  | cbWriteSkip (s : RouteState) (i : Nat) (obs : TicketStatus)
      (h1 : s.cbs[i]? = some (.readDone obs))
      (h2 : terminalTicket obs = true) :
      RouteStep s ⟨s.status, s.pending, s.cbs.set i .doneCb⟩

/-- Idealised semantics in which the guard check and the conditional write
of a log callback happen atomically (what the guard comment in the source
intends). -/
inductive RouteStepAtomic : RouteState → RouteState → Prop
  | mainWrite (s : RouteState) (w : TicketStatus) (rest : List TicketStatus)
      (h : s.pending = w :: rest) :
      RouteStepAtomic s ⟨w, rest, s.cbs⟩
  | cbGuardedWrite (s : RouteState) (i : Nat) (h : s.cbs[i]? = some .idleCb) :
      RouteStepAtomic s
        ⟨if terminalTicket s.status then s.status else .running,
         s.pending, s.cbs.set i .doneCb⟩

/-- Invariant of the route machine: once the status is terminal the main
path has no pending writes, and only the last pending main write is
terminal. -/
def RouteInv (s : RouteState) : Prop :=
  (terminalTicket s.status = true → s.pending = [])
  ∧ ∀ w ∈ s.pending.dropLast, terminalTicket w = false

/-- C1: for both supervisors — the close handlers of `executeRalph` and of
`executeRalphChanges` alike — the promise resolves exactly when the exit
code is zero and a terminal result was parsed (an iff is stated for each
handler), in which case the Progress Record is patched to COMPLETED and the
resolved value is that report; every other termination (non-zero or null
exit code, exit code zero without a parsed result, or a spawn error)
patches the Progress Record to FAILED with a message naming the exit code
or the error, and rejects.  The promise never resolves without a report. -/
theorem executeRalph_terminal_spec :
    ∀ (code : Option Int) (report : Option RalphReport) (now : String),
      ((∃ r, (ralphCloseHandler code report now).1 = .resolved r) ↔
        (code = some 0 ∧ report ≠ none))
      ∧ (∀ r, (ralphCloseHandler code report now).1 = .resolved r →
          report = some r ∧
          (ralphCloseHandler code report now).2.status = some .COMPLETED)
      ∧ (¬(code = some 0 ∧ report ≠ none) →
          (ralphCloseHandler code report now).1 =
            .rejected ("Ralph exited with code " ++ exitCodeText code) ∧
          (ralphCloseHandler code report now).2.status = some .FAILED ∧
          (ralphCloseHandler code report now).2.message =
            some ("Ralph exited with code " ++ exitCodeText code))
      ∧ ((∃ r, (ralphChangesCloseHandler code report now).1 = .resolved r) ↔
        (code = some 0 ∧ report ≠ none))
      ∧ (∀ r, (ralphChangesCloseHandler code report now).1 = .resolved r →
          code = some 0 ∧ report = some r ∧
          (ralphChangesCloseHandler code report now).2.status = some .COMPLETED)
      ∧ (¬(code = some 0 ∧ report ≠ none) →
          (ralphChangesCloseHandler code report now).1 =
            .rejected ("Ralph exited with code " ++ exitCodeText code) ∧
          (ralphChangesCloseHandler code report now).2.status = some .FAILED)
      ∧ (∀ msg, (ralphErrorHandler msg now).1 =
            .rejected ("Failed to start Ralph: " ++ msg) ∧
          (ralphErrorHandler msg now).2.status = some .FAILED ∧
          (ralphErrorHandler msg now).2.message =
            some ("Failed to start Ralph: " ++ msg)) := by
  intro code report now
  by_cases hc : code = some 0
  · cases report with
    | some x =>
        refine ⟨?_, ?_, ?_, ?_, ?_, ?_, ?_⟩
        · exact ⟨fun _ => ⟨hc, by simp⟩, fun _ => ⟨x, by simp [ralphCloseHandler, hc]⟩⟩
        · intro r hr
          simp only [ralphCloseHandler, hc, if_pos] at hr ⊢
          cases hr
          simp
        · intro hno
          exact absurd ⟨hc, by simp⟩ hno
        · exact ⟨fun _ => ⟨hc, by simp⟩,
            fun _ => ⟨x, by simp [ralphChangesCloseHandler, hc]⟩⟩
        · intro r hr
          simp only [ralphChangesCloseHandler, hc, if_pos] at hr ⊢
          cases hr
          simp [hc]
        · intro hno
          exact absurd ⟨hc, by simp⟩ hno
        · intro msg
          exact ⟨rfl, rfl, rfl⟩
    | none =>
        refine ⟨?_, ?_, ?_, ?_, ?_, ?_, ?_⟩
        · constructor
          · rintro ⟨r, hr⟩
            simp [ralphCloseHandler, hc] at hr
          · rintro ⟨_, hr⟩
            exact absurd rfl hr
        · intro r hr
          simp [ralphCloseHandler, hc] at hr
        · intro _
          simp [ralphCloseHandler, hc]
        · constructor
          · rintro ⟨r, hr⟩
            simp [ralphChangesCloseHandler, hc] at hr
          · rintro ⟨_, hr⟩
            exact absurd rfl hr
        · intro r hr
          simp [ralphChangesCloseHandler, hc] at hr
        · intro _
          simp [ralphChangesCloseHandler, hc]
        · intro msg
          exact ⟨rfl, rfl, rfl⟩
  · refine ⟨?_, ?_, ?_, ?_, ?_, ?_, ?_⟩
    · constructor
      · rintro ⟨r, hr⟩
        simp [ralphCloseHandler, hc] at hr
      · rintro ⟨h0, _⟩
        exact absurd h0 hc
    · intro r hr
      simp [ralphCloseHandler, hc] at hr
    · intro _
      simp [ralphCloseHandler, hc]
    · constructor
      · rintro ⟨r, hr⟩
        simp [ralphChangesCloseHandler, hc] at hr
      · rintro ⟨h0, _⟩
        exact absurd h0 hc
    · intro r hr
      simp [ralphChangesCloseHandler, hc] at hr
    · intro _
      simp [ralphChangesCloseHandler, hc]
    · intro msg
      exact ⟨rfl, rfl, rfl⟩

/-- Witness for the terminal-outcome theorem at concrete inputs: exit code 1
with no parsed result rejects and marks FAILED with a message naming code 1. -/
theorem executeRalph_terminal_spec_witness :
    (ralphCloseHandler (some 1) none "t").1 =
      .rejected "Ralph exited with code 1" ∧
    (ralphCloseHandler (some 1) none "t").2.status = some .FAILED := by
  have h := (executeRalph_terminal_spec (some 1) none "t").2.2.1
    (by intro hc; exact absurd hc.1 (by decide))
  exact ⟨h.1, h.2.1⟩

/-- Counterexample to C2: the creation timestamp of `createRalphInstance` has
only millisecond resolution, so two invocations within the same millisecond
(identical ISO timestamp string) with titles that slugify identically
allocate the SAME instance path — the timestamp component does not guarantee
uniqueness.  Here both titles slugify to "fix-login-bug" and the two paths
coincide. -/
theorem createRalphInstance_same_millisecond_collision :
    slugify "Fix login bug" = slugify "Fix Login Bug" ∧
    slugify "Fix login bug" = "fix-login-bug" ∧
    instancePathOf "/app" "Fix login bug" "2026-10-11T12:00:00.000Z" =
      instancePathOf "/app" "Fix Login Bug" "2026-10-11T12:00:00.000Z" ∧
    instancePathOf "/app" "Fix login bug" "2026-10-11T12:00:00.000Z" =
      "/app/ralph-instances/fix-login-bug-2026-10-11T12-00-00-000Z" := by
  refine ⟨by decide, by decide, by decide, by decide⟩

/-- Amended C2: instance paths of two invocations whose titles slugify
identically are distinct exactly as far as the sanitised millisecond
timestamps differ; invocations in different milliseconds (different ISO
timestamp strings, hence different sanitised timestamps) do get distinct
paths. -/
theorem createRalphInstance_distinct_iff_timestamp_distinct :
    ∀ cwd t1 t2 iso1 iso2, slugify t1 = slugify t2 →
      ralphTimestamp iso1 ≠ ralphTimestamp iso2 →
      instancePathOf cwd t1 iso1 ≠ instancePathOf cwd t2 iso2 := by
  intro cwd t1 t2 iso1 iso2 hslug hts heq
  apply hts
  unfold instancePathOf at heq
  rw [hslug] at heq
  have hd := congrArg String.data heq
  simp only [String.data_append] at hd
  simp only [List.append_assoc] at hd
  have h1 := List.append_cancel_left hd
  have h2 := List.append_cancel_left h1
  have h3 := List.append_cancel_left h2
  have h4 := List.append_cancel_left h3
  exact String.ext h4

/-- Witness for the amended C2 theorem: same title one millisecond apart
yields distinct instance paths. -/
theorem createRalphInstance_distinct_iff_timestamp_distinct_witness :
    instancePathOf "/app" "Fix login bug" "2026-10-11T12:00:00.000Z" ≠
      instancePathOf "/app" "Fix login bug" "2026-10-11T12:00:00.001Z" :=
  createRalphInstance_distinct_iff_timestamp_distinct
    "/app" "Fix login bug" "Fix login bug"
    "2026-10-11T12:00:00.000Z" "2026-10-11T12:00:00.001Z" rfl (by decide)

/-- The last `n` elements of a list no longer than `n` are the whole list. -/
theorem lastN_of_le {α : Type} (n : Nat) (xs : List α) (h : xs.length ≤ n) :
    lastN n xs = xs := by
  unfold lastN
  have h0 : xs.length - n = 0 := by omega
  rw [h0, List.drop_zero]

/-- Keeping the last `n` elements, appending, and keeping the last `n` again
is the same as keeping the last `n` of the full concatenation. -/
theorem lastN_absorb {α : Type} (n : Nat) (xs ys : List α) :
    lastN n (lastN n xs ++ ys) = lastN n (xs ++ ys) := by
  by_cases h : xs.length ≤ n
  · rw [lastN_of_le n xs h]
  · push_neg at h
    unfold lastN
    have h1 : xs.length - n ≤ xs.length := Nat.sub_le _ _
    rw [← List.drop_append_of_le_length h1, List.drop_drop]
    congr 1
    simp only [List.length_drop, List.length_append]
    omega

/-- The last `n` of a concatenation whose right part already has at least
`n` elements ignore the left part. -/
theorem lastN_append_right {α : Type} (n : Nat) (xs ys : List α)
    (h : n ≤ ys.length) : lastN n (xs ++ ys) = lastN n ys := by
  unfold lastN
  have h2 : (xs ++ ys).length - n = xs.length + (ys.length - n) := by
    rw [List.length_append]; omega
  rw [h2, List.drop_append]

/-- The last `n` elements are never more than `n` elements. -/
theorem lastN_length_le {α : Type} (n : Nat) (xs : List α) :
    (lastN n xs).length ≤ n := by
  unfold lastN
  rw [List.length_drop]
  omega

/-- The push-then-cap step of `appendLog` always equals keeping the last 100
elements of the pushed list. -/
theorem appendLogLogs_eq_lastN (l : List String) (e : String) :
    appendLogLogs l e = lastN 100 (l ++ [e]) := by
  unfold appendLogLogs lastN
  by_cases h : (l ++ [e]).length > 100
  · rw [if_pos h]
  · rw [if_neg h]
    have h0 : (l ++ [e]).length - 100 = 0 := by
      simp only [List.length_append, List.length_cons, List.length_nil] at h ⊢
      omega
    rw [h0, List.drop_zero]

/-- Iterating `appendLog` over a readable record touches only the log array
and the transcript: the record keeps its scalar fields and its log array
becomes the last 100 entries of the old array extended by all new entries in
order. -/
theorem iterateAppendLogs_json :
    ∀ (msgs : List (String × String)) (md : String) (p : RalphProgress),
      p.logs.length ≤ 100 →
      (∀ m ∈ msgs, jsTrim m.1 ≠ "") →
      (iterateAppendLogs ⟨md, some p⟩ msgs).progressJson
        = some ⟨p.status, p.phase, p.message, p.timestamp,
                lastN 100 (p.logs ++ msgs.map fun m => entryOf m.2 m.1)⟩ := by
  intro msgs
  induction msgs with
  | nil =>
      intro md p hlen _
      simp only [iterateAppendLogs, List.foldl_nil, List.map_nil, List.append_nil]
      rw [lastN_of_le 100 p.logs hlen]
  | cons m msgs ih =>
      intro md p hlen hblank
      have hm : jsTrim m.1 ≠ "" := hblank m (List.mem_cons_self m msgs)
      have hrest : ∀ x ∈ msgs, jsTrim x.1 ≠ "" :=
        fun x hx => hblank x (List.mem_cons_of_mem m hx)
      have hstep : appendLog ⟨md, some p⟩ m.1 m.2
          = ⟨md ++ "\n" ++ entryOf m.2 m.1,
             some ⟨p.status, p.phase, p.message, p.timestamp,
                   appendLogLogs p.logs (entryOf m.2 m.1)⟩⟩ := by
        simp [appendLog, hm]
      have hlen2 : (appendLogLogs p.logs (entryOf m.2 m.1)).length ≤ 100 := by
        rw [appendLogLogs_eq_lastN]
        exact lastN_length_le _ _
      have := ih (md ++ "\n" ++ entryOf m.2 m.1)
        ⟨p.status, p.phase, p.message, p.timestamp,
         appendLogLogs p.logs (entryOf m.2 m.1)⟩ hlen2 hrest
      simp only [iterateAppendLogs, List.foldl_cons] at this ⊢
      rw [hstep]
      rw [this]
      simp only [appendLogLogs_eq_lastN, lastN_absorb, List.map_cons]
      rw [List.append_assoc]
      rfl

/-- Amended C3: single-line log appends routed through `appendLog` (the
progress-store single-line append operation) are subject to the 100-entry
retention: the stored log array is always the last 100 entries of the
appended stream in order, and after 150 appends it holds exactly the 100
most recent entries (entries 51 to 150) and has length 100.  The merge
performed by `updateProgress` itself does not truncate (see the
counterexample theorem). -/
theorem appendLog_retention_spec :
    ∀ (md : String) (p : RalphProgress) (msgs : List (String × String)),
      p.logs.length ≤ 100 →
      (∀ m ∈ msgs, jsTrim m.1 ≠ "") →
      ((iterateAppendLogs ⟨md, some p⟩ msgs).progressJson.map RalphProgress.logs
        = some (lastN 100 (p.logs ++ msgs.map fun m => entryOf m.2 m.1)))
      ∧ (msgs.length = 150 →
          (iterateAppendLogs ⟨md, some p⟩ msgs).progressJson.map RalphProgress.logs
            = some ((msgs.map fun m => entryOf m.2 m.1).drop 50)
          ∧ ∀ q, (iterateAppendLogs ⟨md, some p⟩ msgs).progressJson = some q →
              q.logs.length = 100) := by
  intro md p msgs hlen hblank
  have hj := iterateAppendLogs_json msgs md p hlen hblank
  constructor
  · rw [hj]; rfl
  · intro h150
    have hmaplen : (msgs.map fun m => entryOf m.2 m.1).length = 150 := by
      rw [List.length_map, h150]
    have hright : lastN 100 (p.logs ++ msgs.map fun m => entryOf m.2 m.1)
        = (msgs.map fun m => entryOf m.2 m.1).drop 50 := by
      rw [lastN_append_right 100 _ _ (by rw [hmaplen]; omega)]
      unfold lastN
      rw [hmaplen]
    constructor
    · rw [hj, hright]
      rfl
    · intro q hq
      rw [hj] at hq
      cases hq
      simp only [hright, List.length_drop, hmaplen]

/-- Counterexample to C3 as stated: the merge in `updateProgress` appends the
incoming log lines WITHOUT any truncation, so 150 single-line log appends
performed through the progress-store update operation leave a stored log
array of length 150, not at most 100.  The starting record is the one
`executeRalph` writes at run start (empty log array). -/
theorem updateProgress_no_retention_counterexample :
    (iterateUpdates
        ⟨.RUNNING, "Execution", "Claude is implementing the PRD...", "t0", []⟩
        (List.replicate 150 "line")).logs.length = 150 ∧
    ¬ (iterateUpdates
        ⟨.RUNNING, "Execution", "Claude is implementing the PRD...", "t0", []⟩
        (List.replicate 150 "line")).logs.length ≤ 100 := by
  set_option maxRecDepth 10000 in decide

/-- Witness for the amended C3 theorem: one non-blank append through
`appendLog` on a fresh record stores exactly that entry. -/
theorem appendLog_retention_spec_witness :
    (iterateAppendLogs ⟨"", some ⟨.RUNNING, "", "", "", []⟩⟩
        [("hello", "t1")]).progressJson.map RalphProgress.logs
      = some ["[t1] hello"] := by
  have h := (appendLog_retention_spec "" ⟨.RUNNING, "", "", "", []⟩
    [("hello", "t1")] (by decide) (by decide)).1
  rw [h]
  decide

/-- A split never produces an empty segment list. -/
theorem splitNl_ne_nil (s : List Char) : splitNl s ≠ [] := by
  cases s with
  | nil => simp [splitNl]
  | cons c cs =>
      simp only [splitNl]
      cases h : splitNl cs with
      | nil => simp
      | cons l ls =>
          by_cases hc : c = '\n' <;> simp [hc]

/-- Glueing a fragment onto a split never produces an empty list. -/
theorem glueFirst_ne_nil (p : List Char) (xs : List (List Char)) :
    glueFirst p xs ≠ [] := by
  cases xs <;> simp [glueFirst]

/-- Splitting a concatenation: the segments of the left part except its
trailing fragment, then the trailing fragment glued onto the split of the
right part. -/
theorem splitNl_append (a b : List Char) :
    splitNl (a ++ b)
      = (splitNl a).dropLast
          ++ glueFirst ((splitNl a).getLast?.getD []) (splitNl b) := by
  induction a with
  | nil =>
      cases hb : splitNl b with
      | nil => exact absurd hb (splitNl_ne_nil b)
      | cons h t => simp [splitNl, glueFirst, hb]
  | cons c a ih =>
      cases ha : splitNl a with
      | nil => exact absurd ha (splitNl_ne_nil a)
      | cons l ls =>
          rw [ha] at ih
          cases hg : glueFirst ((l :: ls).getLast?.getD []) (splitNl b) with
          | nil => exact absurd hg (glueFirst_ne_nil _ _)
          | cons g gs =>
              rw [hg] at ih
              cases ls with
              | nil =>
                  have hlast : ([l].getLast?.getD []) = l := by simp
                  have hg2 : glueFirst l (splitNl b) = g :: gs := by
                    rw [← hlast]; exact hg
                  cases hbsplit : splitNl b with
                  | nil => exact absurd hbsplit (splitNl_ne_nil b)
                  | cons hb1 tb =>
                      rw [hbsplit] at hg2
                      simp only [glueFirst] at hg2
                      cases hg2
                      have ih2 : splitNl (a ++ b) = (l ++ hb1) :: gs := by
                        simpa using ih
                      by_cases hc : c = '\n'
                      · subst hc
                        simp [List.cons_append, splitNl, ih2, ha, glueFirst, hbsplit]
                      · simp [List.cons_append, splitNl, ih2, ha, glueFirst, hbsplit, hc]
              | cons l2 ls2 =>
                  have ih2 : splitNl (a ++ b) = l :: ((l2 :: ls2).dropLast ++ g :: gs) := by
                    rw [ih]
                    simp [List.dropLast_cons₂]
                  have hlast2 : ((l :: l2 :: ls2).getLast?.getD [])
                      = ((l2 :: ls2).getLast?.getD []) := by
                    rw [List.getLast?_cons_cons]
                  by_cases hc : c = '\n'
                  · subst hc
                    simp [List.cons_append, splitNl, ih2, ha, List.dropLast_cons₂, hlast2, hg,
                      ← hlast2]
                  · simp [List.cons_append, splitNl, ih2, ha, List.dropLast_cons₂, hlast2, hg,
                      ← hlast2, hc]

/-- No segment of a split contains a newline. -/
theorem splitNl_no_newline (s : List Char) : ∀ l ∈ splitNl s, '\n' ∉ l := by
  induction s with
  | nil =>
      intro l hl
      simp [splitNl] at hl
      simp [hl]
  | cons c cs ih =>
      intro l hl
      cases h : splitNl cs with
      | nil => exact absurd h (splitNl_ne_nil cs)
      | cons x xs =>
          rw [h] at ih
          simp only [splitNl, h] at hl
          by_cases hc : c = '\n'
          · rw [if_pos hc] at hl
            rcases List.mem_cons.mp hl with h1 | h2
            · simp [h1]
            · exact ih l h2
          · rw [if_neg hc] at hl
            rcases List.mem_cons.mp hl with h1 | h2
            · subst h1
              intro hmem
              rcases List.mem_cons.mp hmem with h3 | h4
              · exact hc h3.symm
              · exact ih x (List.mem_cons_self x xs) h4
            · exact ih l (List.mem_cons_of_mem x h2)

/-- A newline-free sequence splits into itself as the single segment. -/
theorem splitNl_of_no_newline (s : List Char) (h : '\n' ∉ s) :
    splitNl s = [s] := by
  induction s with
  | nil => rfl
  | cons c cs ih =>
      have hc : c ≠ '\n' := fun he => h (he ▸ List.mem_cons_self c cs)
      have hcs : '\n' ∉ cs := fun hm => h (List.mem_cons_of_mem c hm)
      simp [splitNl, ih hcs, hc]

/-- The held-over trailing fragment of any split is newline-free. -/
theorem lastPart_no_newline (s : List Char) :
    '\n' ∉ (splitNl s).getLast?.getD [] := by
  cases h : (splitNl s).getLast? with
  | none => simp
  | some x =>
      have hx : x ∈ splitNl s := by
        rcases List.mem_getLast?_eq_getLast (l := splitNl s) (x := x)
          (by rw [h]; rfl) with ⟨hne, hxe⟩
        rw [hxe]
        exact List.getLast_mem hne
      simpa using splitNl_no_newline s x hx

/-- Chunk processing from any newline-free line buffer processes exactly the
complete lines of the buffer followed by the joined chunks, and holds the
incomplete trailing fragment in the buffer. -/
theorem runChunks_spec :
    ∀ (cs : List (List Char)) (buf : List Char), '\n' ∉ buf →
      runChunks buf cs
        = ((splitNl (buf ++ cs.flatten)).dropLast,
           (splitNl (buf ++ cs.flatten)).getLast?.getD []) := by
  intro cs
  induction cs with
  | nil =>
      intro buf hbuf
      simp only [runChunks, List.flatten_nil, List.append_nil]
      rw [splitNl_of_no_newline buf hbuf]
      simp
  | cons c cs ih =>
      intro buf hbuf
      have hbuf2 : '\n' ∉ (splitNl (buf ++ c)).getLast?.getD [] :=
        lastPart_no_newline (buf ++ c)
      have hrec := ih _ hbuf2
      simp only [runChunks, chunkStep, hrec, List.flatten_cons]
      have hsplit2 : splitNl ((splitNl (buf ++ c)).getLast?.getD [] ++ cs.flatten)
          = glueFirst ((splitNl (buf ++ c)).getLast?.getD []) (splitNl cs.flatten) := by
        rw [splitNl_append]
        rw [splitNl_of_no_newline _ hbuf2]
        simp [glueFirst]
      have hsplit3 : splitNl (buf ++ (c ++ cs.flatten))
          = (splitNl (buf ++ c)).dropLast
              ++ glueFirst ((splitNl (buf ++ c)).getLast?.getD []) (splitNl cs.flatten) := by
        rw [← List.append_assoc]
        exact splitNl_append (buf ++ c) cs.flatten
      rw [hsplit2]
      rw [← List.append_assoc] at hsplit3 ⊢
      rw [hsplit3]
      rw [List.dropLast_append_of_ne_nil _ (glueFirst_ne_nil _ _),
        List.getLast?_append_of_ne_nil _ (glueFirst_ne_nil _ _)]

/-- C4: the streaming stdout parser of `executeRalph` processes exactly the
complete newline-terminated lines of the byte stream, holds the incomplete
trailing fragment over to the next chunk, and is invariant under
re-segmentation of the stream into chunks: any two chunkings with the same
concatenation process the same lines with the same final buffer.  In
particular a structured result event split across two chunk boundaries is
processed as exactly one complete line once its newline arrives — never
zero, never two — and after the first fragment alone nothing is processed
and the fragment is held in the buffer. -/
theorem stdout_resegmentation_invariance :
    (∀ chunks : List (List Char),
      runChunks [] chunks
        = ((splitNl chunks.flatten).dropLast,
           (splitNl chunks.flatten).getLast?.getD []))
    ∧ (∀ c1 c2 : List (List Char), c1.flatten = c2.flatten →
        runChunks [] c1 = runChunks [] c2)
    ∧ (runChunks [] ["\x7b\"type\":\"res".toList,
        "ult\",\"is_error\":false\x7d\n".toList]).1
        = ["\x7b\"type\":\"result\",\"is_error\":false\x7d".toList]
    ∧ (runChunks [] ["\x7b\"type\":\"res".toList]).1 = []
    ∧ (runChunks [] ["\x7b\"type\":\"res".toList]).2
        = "\x7b\"type\":\"res".toList := by
  have hmain : ∀ chunks : List (List Char),
      runChunks [] chunks
        = ((splitNl chunks.flatten).dropLast,
           (splitNl chunks.flatten).getLast?.getD []) := by
    intro chunks
    have h := runChunks_spec chunks [] (by simp)
    rwa [List.nil_append] at h
  refine ⟨hmain, ?_, by decide, by decide, by decide⟩
  intro c1 c2 hj
  rw [hmain c1, hmain c2, hj]

/-- Witness for the re-segmentation theorem: two different chunkings of the
same stream process identically. -/
theorem stdout_resegmentation_invariance_witness :
    runChunks [] ["ab\nc".toList, "d\n".toList]
      = runChunks [] ["ab".toList, "\ncd".toList, "\n".toList] :=
  stdout_resegmentation_invariance.2.1 _ _ (by decide)

/-- Counterexample to C5 as stated: for a result event whose per-model usage
map is present and non-empty but whose first key is the empty string, the
or-default in the source treats the empty-string key as falsy and yields
"unknown", while the claim requires the model to equal the first key (the
empty string) because the map is neither absent nor empty. -/
theorem buildReport_empty_model_key_counterexample :
    (buildReport ⟨some false, none, none, none, some [""], none, none⟩).model
      = "unknown"
    ∧ (⟨some false, none, none, none, some [""], none, none⟩ :
        ResultEvent).modelUsageKeys.getD [] ≠ []
    ∧ ((⟨some false, none, none, none, some [""], none, none⟩ :
        ResultEvent).modelUsageKeys.getD []).head? = some ""
    ∧ (buildReport ⟨some false, none, none, none, some [""], none, none⟩).model
        ≠ "" := by
  refine ⟨by decide, by decide, by decide, by decide⟩

/-- Amended C5: the Report copies each field of the result event with the
stated defaults — success is the negation of the error flag (true when the
flag is absent), every numeric field is the corresponding event field or
zero when absent, the model is the first key of the per-model usage map or
"unknown" when that map is absent or empty OR its first key is the empty
string — and the concrete scenario event yields success, cost 0.02 and
token counts 100/50. -/
theorem buildReport_spec :
    (∀ e : ResultEvent,
      (∀ b, e.is_error = some b → (buildReport e).success = !b)
      ∧ (e.is_error = none → (buildReport e).success = true)
      ∧ (e.duration_ms = none → (buildReport e).durationMs = 0)
      ∧ (∀ x, e.duration_ms = some x → (buildReport e).durationMs = x)
      ∧ (e.total_cost_usd = none → (buildReport e).totalCostUsd = 0)
      ∧ (∀ x, e.total_cost_usd = some x → (buildReport e).totalCostUsd = x)
      ∧ (e.num_turns = none → (buildReport e).numTurns = 0)
      ∧ (∀ x, e.num_turns = some x → (buildReport e).numTurns = x)
      ∧ (e.usage = none → (buildReport e).usage = ⟨0, 0, 0, 0⟩)
      ∧ (∀ u, e.usage = some u →
          (buildReport e).usage
            = ⟨u.input_tokens.getD 0, u.output_tokens.getD 0,
               u.cache_read_input_tokens.getD 0,
               u.cache_creation_input_tokens.getD 0⟩)
      ∧ (∀ k ks, e.modelUsageKeys = some (k :: ks) → k ≠ "" →
          (buildReport e).model = k)
      ∧ (e.modelUsageKeys = none ∨ e.modelUsageKeys = some [] ∨
          (∃ ks, e.modelUsageKeys = some ("" :: ks)) →
          (buildReport e).model = "unknown"))
    ∧ (buildReport ⟨some false, none, some 0.02, none, none,
        some ⟨some 100, some 50, none, none⟩, none⟩).success = true
    ∧ (buildReport ⟨some false, none, some 0.02, none, none,
        some ⟨some 100, some 50, none, none⟩, none⟩).totalCostUsd = 0.02
    ∧ (buildReport ⟨some false, none, some 0.02, none, none,
        some ⟨some 100, some 50, none, none⟩, none⟩).usage.inputTokens = 100
    ∧ (buildReport ⟨some false, none, some 0.02, none, none,
        some ⟨some 100, some 50, none, none⟩, none⟩).usage.outputTokens = 50 := by
  refine ⟨?_, by decide, rfl, by decide, by decide⟩
  intro e
  refine ⟨?_, ?_, ?_, ?_, ?_, ?_, ?_, ?_, ?_, ?_, ?_, ?_⟩
  · intro b hb
    simp [buildReport, hb]
  · intro hb
    simp [buildReport, hb]
  · intro h
    simp [buildReport, h]
  · intro x h
    simp [buildReport, h]
  · intro h
    simp [buildReport, h]
  · intro x h
    simp [buildReport, h]
  · intro h
    simp [buildReport, h]
  · intro x h
    simp [buildReport, h]
  · intro h
    simp [buildReport, h]
  · intro u h
    simp [buildReport, h]
  · intro k ks h hk
    simp [buildReport, h, hk]
  · intro h
    rcases h with h | h | ⟨ks, h⟩ <;> simp [buildReport, h]

/-- Witness for the amended C5 theorem: a fully explicit event with error
flag false and a non-empty model key maps to a report with success true and
that model name. -/
theorem buildReport_spec_witness :
    (buildReport ⟨some false, some 5, some 1, some 2, some ["m1"],
        some ⟨some 1, some 2, some 3, some 4⟩, some "done"⟩).success = true
    ∧ (buildReport ⟨some false, some 5, some 1, some 2, some ["m1"],
        some ⟨some 1, some 2, some 3, some 4⟩, some "done"⟩).model = "m1" := by
  constructor
  · exact (buildReport_spec.1 _).1 false rfl
  · exact (buildReport_spec.1 _).2.2.2.2.2.2.2.2.2.2.1 "m1" [] rfl (by decide)

/-- Counterexample to C6 as stated: for a standard-error chunk the handler
appends to the Progress Store BEFORE invoking the `onProgress` callback, so
the callback does not precede the store append for stderr-derived lines. -/
theorem stderr_store_before_callback_counterexample :
    stderrChunkActs "boom"
      = [.debugMirror "[stderr] boom", .store "[error] boom",
         .callback "[stderr] boom"]
    ∧ ¬ ((stderrChunkActs "boom").findIdx isCallbackAct
          < (stderrChunkActs "boom").findIdx isStoreAct) := by
  refine ⟨by decide, by decide⟩

/-- Amended C6: every stdout-derived line performs either no action or
exactly the callback followed by the store append, in that order (callback
strictly first); every stderr chunk performs debug mirror, store append,
callback — so for stderr-derived lines the store append precedes the
callback, the reverse of the claimed order. -/
theorem progress_line_delivery_order :
    (∀ (parsed : Option String) (line : String),
      stdoutLineActs parsed line = []
      ∨ ∃ c s, stdoutLineActs parsed line = [.callback c, .store s])
    ∧ (∀ (parsed : Option String) (line : String),
        stdoutLineActs parsed line ≠ [] →
        (stdoutLineActs parsed line).findIdx isCallbackAct
          < (stdoutLineActs parsed line).findIdx isStoreAct)
    ∧ (∀ chunk, ∃ d s c,
        stderrChunkActs chunk = [.debugMirror d, .store s, .callback c])
    ∧ (∀ chunk, (stderrChunkActs chunk).findIdx isStoreAct
          < (stderrChunkActs chunk).findIdx isCallbackAct) := by
  refine ⟨?_, ?_, ?_, ?_⟩
  · intro parsed line
    match parsed with
    | some logMessage =>
        by_cases h : logMessage = ""
        · left; simp [stdoutLineActs, h]
        · right; exact ⟨logMessage ++ "\n", logMessage, by simp [stdoutLineActs, h]⟩
    | none =>
        by_cases h : jsTrim line = ""
        · left; simp [stdoutLineActs, h]
        · right; exact ⟨line ++ "\n", jsTrim line, by simp [stdoutLineActs, h]⟩
  · intro parsed line hne
    match parsed with
    | some logMessage =>
        by_cases h : logMessage = ""
        · exact absurd (by simp [stdoutLineActs, h]) hne
        · simp [stdoutLineActs, h, List.findIdx_cons, isCallbackAct, isStoreAct]
    | none =>
        by_cases h : jsTrim line = ""
        · exact absurd (by simp [stdoutLineActs, h]) hne
        · simp [stdoutLineActs, h, List.findIdx_cons, isCallbackAct, isStoreAct]
  · intro chunk
    exact ⟨"[stderr] " ++ chunk, "[error] " ++ jsTrim chunk,
           "[stderr] " ++ chunk, rfl⟩
  · intro chunk
    simp [stderrChunkActs, List.findIdx_cons, isCallbackAct, isStoreAct]

/-- Witness for the delivery-order theorem: a parsed line with a non-empty
label invokes the callback strictly before the store append. -/
theorem progress_line_delivery_order_witness :
    (stdoutLineActs (some "msg") "raw").findIdx isCallbackAct
      < (stdoutLineActs (some "msg") "raw").findIdx isStoreAct :=
  progress_line_delivery_order.2.1 (some "msg") "raw" (by decide)

/-- C7: for a codebase path that is not a version-control repository,
`createWorktree` degrades gracefully — it returns the original project path
as work directory together with an empty branch name, appends exactly one
note log line to the Progress Record, and (being total by construction via
the catch-all) never raises. -/
theorem createWorktree_degradation :
    ∀ (env : WorktreeEnv) (inst : RalphInstance) (projectPath : String),
      env.isGitRepo = false →
      createWorktree env inst projectPath
        = ((projectPath, ""),
           ["Note: Could not create worktree, working directly in project"])
      ∧ (createWorktree env inst projectPath).2.length = 1 := by
  intro env inst projectPath h
  constructor
  · simp [createWorktree, h]
  · simp [createWorktree, h]

/-- Witness for the degradation theorem at a concrete non-repository
environment. -/
theorem createWorktree_degradation_witness :
    createWorktree ⟨false, false⟩ ⟨"/i", "slug", "2026-10-11T12-00-00-000Z", none, none⟩ "/proj"
      = (("/proj", ""),
         ["Note: Could not create worktree, working directly in project"]) :=
  (createWorktree_degradation ⟨false, false⟩
    ⟨"/i", "slug", "2026-10-11T12-00-00-000Z", none, none⟩ "/proj" rfl).1

/-- Deleting a key from the registry makes lookup of that key fail. -/
theorem registryGet_delete_self (reg : List (String × Nat)) (k : String) :
    registryGet (registryDelete reg k) k = none := by
  induction reg with
  | nil => rfl
  | cons e reg ih =>
      unfold registryDelete at ih ⊢
      rw [List.filter_cons]
      by_cases h : e.1 == k
      · rw [h]
        simpa using ih
      · rw [Bool.not_eq_true] at h
        rw [h]
        simp only [Bool.not_false, if_true]
        unfold registryGet at ih ⊢
        rw [List.find?_cons]
        rw [h]
        exact ih

/-- C8: cancelling an execution id with no registered handle returns false
and performs no side effect; cancelling a registered handle requests
termination of its process, removes the registration and returns true, so
an immediately subsequent cancel of the same id returns false. -/
theorem cancelRalph_spec :
    ∀ (st : CancelState) (tid : String),
      (registryGet st.registry tid = none → cancelRalph st tid = (false, st))
      ∧ (∀ h, registryGet st.registry tid = some h →
          (cancelRalph st tid).1 = true
          ∧ (cancelRalph st tid).2.registry = registryDelete st.registry tid
          ∧ (cancelRalph st tid).2.killed = h :: st.killed
          ∧ registryGet (cancelRalph st tid).2.registry tid = none
          ∧ (cancelRalph (cancelRalph st tid).2 tid).1 = false) := by
  intro st tid
  constructor
  · intro hn
    simp [cancelRalph, hn]
  · intro h hs
    have h1 : cancelRalph st tid
        = (true, ⟨registryDelete st.registry tid, h :: st.killed⟩) := by
      simp [cancelRalph, hs]
    refine ⟨by rw [h1], by rw [h1], by rw [h1], ?_, ?_⟩
    · rw [h1]
      exact registryGet_delete_self st.registry tid
    · rw [h1]
      simp [cancelRalph, registryGet_delete_self]

/-- Witness for the cancellation theorem: with one registered handle, the
first cancel succeeds, kills handle 7, empties the registration, and the
second cancel returns false; cancelling an unknown id is a no-op. -/
theorem cancelRalph_spec_witness :
    (cancelRalph ⟨[("t1", 7)], []⟩ "t1").1 = true
    ∧ (cancelRalph ⟨[("t1", 7)], []⟩ "t1").2.killed = [7]
    ∧ (cancelRalph (cancelRalph ⟨[("t1", 7)], []⟩ "t1").2 "t1").1 = false
    ∧ cancelRalph ⟨[("t1", 7)], []⟩ "t2" = (false, ⟨[("t1", 7)], []⟩) := by
  have h2 := (cancelRalph_spec ⟨[("t1", 7)], []⟩ "t1").2 7 (by decide)
  have h1 := (cancelRalph_spec ⟨[("t1", 7)], []⟩ "t2").1 (by decide)
  exact ⟨h2.1, by rw [h2.2.2.1], h2.2.2.2.2, h1⟩

/-- C10: for non-blank input `appendLog` changes only the log array of the
stored Progress Record (capped push) and the append-only progress.md
transcript; the status, phase, message and timestamp fields are unchanged
(and a missing record stays missing); for blank or whitespace-only input it
performs no write at all. -/
theorem appendLog_frame :
    ∀ (files : InstanceFiles) (message now : String),
      (jsTrim message = "" → appendLog files message now = files)
      ∧ (jsTrim message ≠ "" →
          (appendLog files message now).progressMd
            = files.progressMd ++ "\n" ++ entryOf now message
          ∧ (files.progressJson = none →
              (appendLog files message now).progressJson = none)
          ∧ ∀ p, files.progressJson = some p →
              (appendLog files message now).progressJson
                = some ⟨p.status, p.phase, p.message, p.timestamp,
                        appendLogLogs p.logs (entryOf now message)⟩) := by
  intro files message now
  constructor
  · intro h
    simp [appendLog, h]
  · intro h
    refine ⟨?_, ?_, ?_⟩
    · cases hj : files.progressJson <;> simp [appendLog, h, hj]
    · intro hn
      simp [appendLog, h, hn]
    · intro p hp
      simp [appendLog, h, hp]

/-- Witness for the frame theorem: a whitespace-only message writes nothing,
and a non-blank message only extends the log array of the record. -/
theorem appendLog_frame_witness :
    appendLog ⟨"md", some ⟨.RUNNING, "ph", "msg", "ts", ["l1"]⟩⟩ "  " "t2"
      = ⟨"md", some ⟨.RUNNING, "ph", "msg", "ts", ["l1"]⟩⟩
    ∧ (appendLog ⟨"md", some ⟨.RUNNING, "ph", "msg", "ts", ["l1"]⟩⟩
        "hello" "t2").progressJson
        = some ⟨.RUNNING, "ph", "msg", "ts",
                appendLogLogs ["l1"] (entryOf "t2" "hello")⟩ := by
  have h1 := (appendLog_frame
    ⟨"md", some ⟨.RUNNING, "ph", "msg", "ts", ["l1"]⟩⟩ "  " "t2").1 (by decide)
  have h2 := ((appendLog_frame
    ⟨"md", some ⟨.RUNNING, "ph", "msg", "ts", ["l1"]⟩⟩ "hello" "t2").2
    (by decide)).2.2 ⟨.RUNNING, "ph", "msg", "ts", ["l1"]⟩ rfl
  exact ⟨h1, h2⟩

/-- C9 failing execution: under the interleaving semantics of the route as
written, a log callback that read a pre-terminal status before the terminal
write can overwrite COMPLETED with RUNNING afterwards — the guard comment
intends to prevent exactly this, but the check and the write are separate
database operations.  The exhibited reachable run: the route writes
LAUNCHING, an in-flight log callback reads LAUNCHING, the promise
continuation writes COMPLETED, and the callback then writes RUNNING,
leaving the terminal status. -/
theorem ticket_status_leaves_completed_counterexample :
    Relation.ReflTransGen RouteStep
      ⟨.idle, [.launching, .completed], [.idleCb]⟩
      ⟨.completed, [], [.readDone .launching]⟩
    ∧ RouteStep ⟨.completed, [], [.readDone .launching]⟩
        ⟨.running, [], [.doneCb]⟩
    ∧ terminalTicket .completed = true
    ∧ terminalTicket .running = false := by
  refine ⟨?_, ?_, rfl, rfl⟩
  · exact Relation.ReflTransGen.head
      (RouteStep.mainWrite ⟨.idle, [.launching, .completed], [.idleCb]⟩
        .launching [.completed] rfl)
      (Relation.ReflTransGen.head
        (RouteStep.cbRead ⟨.launching, [.completed], [.idleCb]⟩ 0 rfl)
        (Relation.ReflTransGen.single
          (RouteStep.mainWrite
            ⟨.launching, [.completed], [.readDone .launching]⟩
            .completed [] rfl)))
  · exact RouteStep.cbWriteRun ⟨.completed, [], [.readDone .launching]⟩
      0 .launching rfl rfl

/-- The route invariant is preserved by every atomic-guard step. -/
theorem routeInv_preserved {s s' : RouteState}
    (hstep : RouteStepAtomic s s') (hinv : RouteInv s) : RouteInv s' := by
  cases hstep with
  | mainWrite w rest h =>
      obtain ⟨hterm, hpend⟩ := hinv
      rw [h] at hpend
      constructor
      · intro hw
        cases rest with
        | nil => rfl
        | cons r rs =>
            have hmem : w ∈ (w :: r :: rs).dropLast := by
              rw [List.dropLast_cons₂]
              exact List.mem_cons_self _ _
            have := hpend w hmem
            rw [this] at hw
            cases hw
      · intro x hx
        apply hpend
        cases rest with
        | nil => cases hx
        | cons r rs =>
            rw [List.dropLast_cons₂]
            exact List.mem_cons_of_mem _ hx
  | cbGuardedWrite i h =>
      obtain ⟨hterm, hpend⟩ := hinv
      constructor
      · intro hw
        by_cases ht : terminalTicket s.status = true
        · rw [if_pos ht] at hw
          exact hterm hw
        · rw [if_neg ht] at hw
          cases hw
      · exact hpend


/-- Supporting theorem for C9: under the atomic-guard semantics the claimed
invariant does hold — from the initial route state, once the ticket status
is COMPLETED or FAILED no reachable step changes it. -/
theorem atomic_guard_no_leave_terminal :
    ∀ (t : TicketStatus) (n : Nat) (s s' : RouteState),
      terminalTicket t = true →
      Relation.ReflTransGen RouteStepAtomic
        ⟨.idle, [.launching, t], List.replicate n .idleCb⟩ s →
      RouteStepAtomic s s' →
      terminalTicket s.status = true →
      s'.status = s.status := by
  intro t n s s' ht hreach hstep hterm
  have hinv : RouteInv s := by
    clear hstep hterm
    induction hreach with
    | refl =>
        constructor
        · intro hw
          cases hw
        · intro w hw
          simp only [List.dropLast_cons₂, List.dropLast_single] at hw
          rcases List.mem_cons.mp hw with h1 | h2
          · rw [h1]; rfl
          · cases h2
    | tail hr hs ih => exact routeInv_preserved hs ih
  cases hstep with
  | mainWrite w rest h =>
      rw [hinv.1 hterm] at h
      cases h
  | cbGuardedWrite i h =>
      simp only [if_pos hterm]

/-- Witness for the supporting C9 theorem: a guarded callback step taken
after the terminal write leaves COMPLETED unchanged. -/
theorem atomic_guard_no_leave_terminal_witness :
    (⟨.completed, [], [.doneCb]⟩ : RouteState).status
      = (⟨.completed, [], [.idleCb]⟩ : RouteState).status :=
  atomic_guard_no_leave_terminal .completed 1
    ⟨.completed, [], [.idleCb]⟩ ⟨.completed, [], [.doneCb]⟩
    rfl
    (Relation.ReflTransGen.head
      (RouteStepAtomic.mainWrite ⟨.idle, [.launching, .completed], [.idleCb]⟩
        .launching [.completed] rfl)
      (Relation.ReflTransGen.single
        (RouteStepAtomic.mainWrite
          ⟨.launching, [.completed], [.idleCb]⟩ .completed [] rfl)))
    (RouteStepAtomic.cbGuardedWrite ⟨.completed, [], [.idleCb]⟩ 0 rfl)
    rfl
